import Mathlib

/-!
Shallow embedding of the chat-application backend (Express + MongoDB) from
`src/server.js` and `src/unnamed/part_000`, and verification of the
frozen claims about it.

The MongoDB collections (users, rooms, messages) are modelled as Lean
lists of structures; Mongo primitives (`findOne`, `findOneAndUpdate`,
`$addToSet`, `$pull`, `deleteOne`, `deleteMany`, `find().sort`) are
modelled as explicit list operations.  `bcrypt.hash`, `bcrypt.compare`
and `jwt.sign` are opaque external libraries, passed in as function
parameters.  Route handlers become pure functions from stores to
(response, new store).
-/

/-- The `User` schema of both source files: name, email (unique key),
bcrypt password hash, avatar path. -/
structure User where
  name : String
  email : String
  password : String
  avatar : String
deriving Repr, DecidableEq

/-- The `Message` schema: sender identity, receiver (room name or peer
email), text, optional file path, room flag, and server timestamp
(`time : Date`, modelled as a natural number). -/
structure Message where
  senderEmail : String
  senderName : String
  receiver : String
  text : String
  file : String
  isRoom : Bool
  time : Nat
deriving Repr, DecidableEq

/-- The `Room` schema: unique name, creator, member emails, pending
join-request emails. -/
structure Room where
  name : String
  creator : String
  members : List String
  joinRequests : List String
deriving Repr, DecidableEq

instance : Inhabited Room := ⟨⟨"", "", [], []⟩⟩

/-- `Room.findOne({ name: n })`: the first room whose name is `n`. -/
def findOneRoom (rooms : List Room) (n : String) : Option Room :=
  rooms.find? (fun r => r.name == n)

/-- `User.findOne({ email: e })`: the first user whose email is `e`. -/
def findOneUser (users : List User) (e : String) : Option User :=
  users.find? (fun u => u.email == e)

/-- Mongo's `$addToSet`: append `x` unless it is already present. -/
def addToSet (l : List String) (x : String) : List String :=
  if x ∈ l then l else l ++ [x]

/-- `Room.findOneAndUpdate({ name: n }, update)`: apply `f` to the first
room named `n`, leaving the collection unchanged when no room matches. -/
def updateFirstRoom (rooms : List Room) (n : String) (f : Room → Room) : List Room :=
  match rooms with
  | [] => []
  | r :: rs => if r.name == n then f r :: rs else r :: updateFirstRoom rs n f

/-- `Room.deleteOne({ name: n })`: remove the first room named `n`. -/
def deleteOneRoom (rooms : List Room) (n : String) : List Room :=
  match rooms with
  | [] => []
  | r :: rs => if r.name == n then rs else r :: deleteOneRoom rs n

/-- `POST /register` from `src/server.js` lines 94-111: reject when a
user with the email exists (400 "User already exists"), otherwise hash
the password and insert the new user with empty avatar.  `bcrypt.hash`
is the parameter `hash`. -/
def register (hash : String → String) (users : List User)
    (name email password : String) : (Nat × String) × List User :=
  match findOneUser users email with
  | some _ => ((400, "User already exists"), users)
  | none => ((200, "Registered successfully"),
      users ++ [⟨name, email, hash password, ""⟩])

/-- Result of `POST /login` (`src/server.js` lines 113-136): a token plus
profile on success, or one of the two 400 failures.  No token field
exists in the failure constructors, mirroring the handler's early
returns. -/
inductive LoginResult where
  | ok (token email name avatar : String)
  | notFound
  | wrongPassword
deriving Repr, DecidableEq

/-- `POST /login`: look up the user by email (400 "User not found" when
absent), check `bcrypt.compare(password, user.password)` (400 "Wrong
password" on mismatch), else sign `{ email }` with the secret and return
token and profile.  `bcrypt.compare` is `verify`, `jwt.sign` is
`sign`. -/
def login (verify : String → String → Bool) (sign : String → String → String)
    (secret : String) (users : List User) (email password : String) : LoginResult :=
  match findOneUser users email with
  | none => .notFound
  | some u =>
    if verify password u.password then
      .ok (sign email secret) u.email u.name u.avatar
    else
      .wrongPassword

/-- The projection returned by `GET /users` (`User.find({}, "name email
avatar")`). -/
structure UserView where
  name : String
  email : String
  avatar : String
deriving Repr, DecidableEq

/-- `GET /users` from `src/server.js` lines 139-143: project every user
to name, email, avatar; the password hash is dropped. -/
def listUsers (users : List User) : List UserView :=
  users.map (fun u => ⟨u.name, u.email, u.avatar⟩)

/-- `GET /rooms`: return the whole room collection. -/
def listRooms (rooms : List Room) : List Room := rooms

/-- The room query of `GET /messages/:type/:id`:
`{ receiver: id, isRoom: true }`. -/
def roomQuery (id : String) (m : Message) : Bool :=
  m.receiver == id && m.isRoom

/-- The private query of `GET /messages/:type/:id`:
`{ isRoom: false, $or: [{senderEmail: me, receiver: id},
{senderEmail: id, receiver: me}] }`. -/
def privateQuery (me id : String) (m : Message) : Bool :=
  !m.isRoom && ((m.senderEmail == me && m.receiver == id) ||
                (m.senderEmail == id && m.receiver == me))

/-- Ascending-time order on messages, the meaning of
`.sort({ time: 1 })`. -/
def timeLE (a b : Message) : Prop := a.time ≤ b.time

instance : DecidableRel timeLE :=
  fun a b => inferInstanceAs (Decidable (a.time ≤ b.time))

instance : IsTotal Message timeLE := ⟨fun a b => Nat.le_total a.time b.time⟩

instance : IsTrans Message timeLE := ⟨fun _ _ _ => Nat.le_trans⟩

/-- `Message.find(query).sort({ time: 1 })`, modelled with insertion
sort over `timeLE`. -/
def sortByTime (l : List Message) : List Message :=
  List.insertionSort timeLE l

/-- `GET /messages/:type/:id?me=...` from `src/server.js` lines 170-194:
build the room query when `type === "room"` and the private query for
every other `type`, then return the matches sorted ascending by time. -/
def getMessages (msgs : List Message) (type id me : String) : List Message :=
  let query := if type == "room" then roomQuery id else privateQuery me id
  sortByTime (msgs.filter query)

/-- `POST /requestJoinRoom` from `src/server.js` lines 231-246:
`findOneAndUpdate({ name: roomName }, { $addToSet: { joinRequests:
email } })` — the email is added to `joinRequests` whenever it is not
already pending, with no check against `members`. -/
def requestJoinRoom (rooms : List Room) (roomName email : String) : List Room :=
  updateFirstRoom rooms roomName
    (fun r => { r with joinRequests := addToSet r.joinRequests email })

/-- `POST /approveJoin` from `src/server.js` lines 249-266: a single
`findOneAndUpdate` applying `$addToSet: { members: email }` and
`$pull: { joinRequests: email }`. -/
def approveJoin (rooms : List Room) (roomName email : String) : List Room :=
  updateFirstRoom rooms roomName
    (fun r => { r with members := addToSet r.members email,
                       joinRequests := r.joinRequests.filter (fun e => e != email) })

/-- `POST /requestJoinRoom` from `src/unnamed/part_000` lines 163-179:
404 when the room is missing; push the email onto `joinRequests` only
when it is neither already pending nor already a member. -/
def requestJoinRoomLegacy (rooms : List Room) (roomName email : String) :
    (Nat × String) × List Room :=
  match findOneRoom rooms roomName with
  | none => ((404, "Room not found"), rooms)
  | some _ => ((200, "Request sent"),
      updateFirstRoom rooms roomName
        (fun r =>
          if !r.joinRequests.contains email && !r.members.contains email then
            { r with joinRequests := r.joinRequests ++ [email] }
          else r))

/-- `POST /approveJoin` from `src/unnamed/part_000` lines 181-198: 404
when the room is missing; otherwise filter the email out of
`joinRequests` and push it onto `members` when absent, then save. -/
def approveJoinLegacy (rooms : List Room) (roomName email : String) :
    (Nat × String) × List Room :=
  match findOneRoom rooms roomName with
  | none => ((404, "Room not found"), rooms)
  | some _ => ((200, "Approved"),
      updateFirstRoom rooms roomName
        (fun r =>
          { r with joinRequests := r.joinRequests.filter (fun e => e != email),
                   members := if r.members.contains email then r.members
                              else r.members ++ [email] }))

/-- `DELETE /deleteRoom/:name` from `src/unnamed/part_000` lines 200-204:
`Room.deleteOne({ name })` then `Message.deleteMany({ receiver: name,
isRoom: true })`. -/
def deleteRoom (rooms : List Room) (msgs : List Message) (n : String) :
    List Room × List Message :=
  (deleteOneRoom rooms n,
   msgs.filter (fun m => !(m.receiver == n && m.isRoom)))

/-! ## Helper lemmas about the Mongo-primitive models -/

theorem mem_addToSet {l : List String} {x y : String} :
    y ∈ addToSet l x ↔ y ∈ l ∨ y = x := by
  by_cases hx : x ∈ l
  · simp only [addToSet, if_pos hx]
    constructor
    · exact Or.inl
    · rintro (h | rfl)
      · exact h
      · exact hx
  · simp [addToSet, if_neg hx]

theorem self_mem_addToSet (l : List String) (x : String) : x ∈ addToSet l x :=
  mem_addToSet.mpr (Or.inr rfl)

theorem addToSet_idem (l : List String) (x : String) :
    addToSet (addToSet l x) x = addToSet l x := by
  show (if x ∈ addToSet l x then addToSet l x else addToSet l x ++ [x]) = addToSet l x
  rw [if_pos (self_mem_addToSet l x)]

theorem filter_ne_addToSet (l : List String) (x : String) :
    (addToSet l x).filter (fun e => e != x) = l.filter (fun e => e != x) := by
  by_cases hx : x ∈ l
  · simp [addToSet, if_pos hx]
  · simp [addToSet, if_neg hx, List.filter_append]

theorem filter_ne_idem (l : List String) (x : String) :
    (l.filter (fun e => e != x)).filter (fun e => e != x) =
      l.filter (fun e => e != x) := by
  rw [List.filter_filter]
  exact List.filter_congr (fun a _ => Bool.and_self _)

theorem not_mem_filter_ne_self (l : List String) (x : String) :
    x ∉ l.filter (fun e => e != x) := by
  intro h
  have hx := (List.mem_filter.mp h).2
  simp at hx

theorem updateFirstRoom_idem (rooms : List Room) (n : String) (f : Room → Room)
    (hname : ∀ r, (f r).name = r.name) (hidem : ∀ r, f (f r) = f r) :
    updateFirstRoom (updateFirstRoom rooms n f) n f = updateFirstRoom rooms n f := by
  induction rooms with
  | nil => rfl
  | cons r rs ih =>
    by_cases h : (r.name == n) = true
    · simp only [updateFirstRoom, if_pos h]
      have h2 : ((f r).name == n) = true := by rw [hname r]; exact h
      simp only [updateFirstRoom, if_pos h2, hidem r]
    · simp only [updateFirstRoom, if_neg h, ih]

theorem findOneRoom_updateFirstRoom (rooms : List Room) (n : String) (f : Room → Room)
    (hname : ∀ r, (f r).name = r.name) :
    findOneRoom (updateFirstRoom rooms n f) n = (findOneRoom rooms n).map f := by
  induction rooms with
  | nil => rfl
  | cons r rs ih =>
    by_cases h : (r.name == n) = true
    · have h2 : ((f r).name == n) = true := by rw [hname r]; exact h
      simp only [findOneRoom, updateFirstRoom, if_pos h] at *
      simp [List.find?_cons, h, h2]
    · rw [Bool.not_eq_true] at h
      simp only [findOneRoom, updateFirstRoom] at *
      simp [List.find?_cons, h, ih]

theorem mem_updateFirstRoom {rooms : List Room} {n : String} {f : Room → Room} {x : Room}
    (hx : x ∈ updateFirstRoom rooms n f) :
    x ∈ rooms ∨ ∃ r ∈ rooms, x = f r := by
  induction rooms with
  | nil => simp only [updateFirstRoom] at hx; cases hx
  | cons r rs ih =>
    by_cases h : (r.name == n) = true
    · simp only [updateFirstRoom, if_pos h] at hx
      rcases List.mem_cons.mp hx with rfl | hmem
      · exact Or.inr ⟨r, List.mem_cons_self r rs, rfl⟩
      · exact Or.inl (List.mem_cons_of_mem _ hmem)
    · simp only [updateFirstRoom, if_neg h] at hx
      rcases List.mem_cons.mp hx with rfl | hmem
      · exact Or.inl (List.mem_cons_self x rs)
      · rcases ih hmem with h1 | ⟨r0, hr0, rfl⟩
        · exact Or.inl (List.mem_cons_of_mem _ h1)
        · exact Or.inr ⟨r0, List.mem_cons_of_mem _ hr0, rfl⟩

/-! ## Claim theorems -/

/-- C7: `GET /messages/room/:id` returns exactly the messages with
`receiver == id` and `isRoom == true` (a permutation of the filtered
store), ordered ascending by timestamp. -/
theorem getMessages_room_spec (msgs : List Message) (id me : String) :
    (getMessages msgs "room" id me).Perm (msgs.filter (roomQuery id)) ∧
    List.Sorted timeLE (getMessages msgs "room" id me) := by
  constructor
  · simpa [getMessages, sortByTime] using
      List.perm_insertionSort timeLE (msgs.filter (roomQuery id))
  · simpa [getMessages, sortByTime] using
      List.sorted_insertionSort timeLE (msgs.filter (roomQuery id))

/-- C6: the private fetch `GET /messages/private/:id?me=...` with id = B,
me = A returns exactly the non-room messages exchanged between A and B
(in either direction), sorted ascending by time, and the result is
literally the same as fetching with the two peers swapped. -/
theorem getMessages_private_spec (msgs : List Message) (A B : String) :
    getMessages msgs "private" B A = getMessages msgs "private" A B ∧
    (getMessages msgs "private" B A).Perm (msgs.filter (privateQuery A B)) ∧
    List.Sorted timeLE (getMessages msgs "private" B A) := by
  refine ⟨?_, ?_, ?_⟩
  · have hq : ∀ m ∈ msgs, privateQuery A B m = privateQuery B A m := by
      intro m _
      simp only [privateQuery]
      rw [Bool.or_comm]
    have h1 : getMessages msgs "private" B A = sortByTime (msgs.filter (privateQuery A B)) := by
      simp [getMessages]
    have h2 : getMessages msgs "private" A B = sortByTime (msgs.filter (privateQuery B A)) := by
      simp [getMessages]
    rw [h1, h2, List.filter_congr hq]
  · simpa [getMessages, sortByTime] using
      List.perm_insertionSort timeLE (msgs.filter (privateQuery A B))
  · simpa [getMessages, sortByTime] using
      List.sorted_insertionSort timeLE (msgs.filter (privateQuery A B))

/-- C10: the conversation-kind dispatch of `GET /messages/:type/:id` has
exactly two branches; every `type` other than `"room"` selects the
private query, so it behaves exactly as the `"private"` fetch. -/
theorem getMessages_dispatch (msgs : List Message) (type id me : String)
    (h : type ≠ "room") :
    getMessages msgs type id me = getMessages msgs "private" id me ∧
    getMessages msgs type id me = sortByTime (msgs.filter (privateQuery me id)) := by
  have hb : (type == "room") = false := by
    simpa using h
  constructor
  · simp [getMessages, hb]
  · simp [getMessages, hb]

/-- Witness for C10 at the concrete kind `"group"`. -/
theorem getMessages_dispatch_witness :
    getMessages [] "group" "i" "m" = getMessages [] "private" "i" "m" ∧
    getMessages [] "group" "i" "m" = sortByTime (List.filter (privateQuery "m" "i") []) :=
  getMessages_dispatch [] "group" "i" "m" (by decide)

/-- C9: `GET /users` projects each identity to name, email, avatar; for
any two user stores that differ only in the stored password hashes the
response is identical, so the hash is never exposed. -/
theorem listUsers_password_independent (users : List User) (f : User → String) :
    listUsers (users.map (fun u => { u with password := f u })) = listUsers users := by
  induction users with
  | nil => rfl
  | cons u us ih => simp_all [listUsers]

/-- C4: `POST /approveJoin` (server.js) is idempotent — applying it twice
for the same room name and email leaves the room collection exactly as
applying it once, from any starting state. -/
theorem approveJoin_idempotent (rooms : List Room) (roomName email : String) :
    approveJoin (approveJoin rooms roomName email) roomName email =
      approveJoin rooms roomName email := by
  unfold approveJoin
  apply updateFirstRoom_idem
  · intro r; rfl
  · intro r
    simp [addToSet_idem, filter_ne_idem]

theorem findOneUser_eq_none_iff (users : List User) (email : String) :
    findOneUser users email = none ↔ ∀ u ∈ users, u.email ≠ email := by
  simp [findOneUser, List.find?_eq_none]

theorem findOneUser_eq_some_mem {users : List User} {email : String} {u : User}
    (h : findOneUser users email = some u) : u ∈ users ∧ u.email = email := by
  refine ⟨List.mem_of_find?_eq_some h, ?_⟩
  simpa using List.find?_some h

/-- C8: login succeeds (returns a token) iff a user with the email exists
and the password verifies against the stored hash; a missing email gives
`notFound`, a failed verification gives `wrongPassword`, and neither
failure constructor carries a token. -/
theorem login_spec (verify : String → String → Bool) (sign : String → String → String)
    (secret : String) (users : List User) (email password : String) :
    ((∃ t e n a, login verify sign secret users email password = .ok t e n a) ↔
      ∃ u, findOneUser users email = some u ∧ verify password u.password = true) ∧
    (login verify sign secret users email password = .notFound ↔
      ∀ u ∈ users, u.email ≠ email) ∧
    (login verify sign secret users email password = .wrongPassword ↔
      ∃ u, findOneUser users email = some u ∧ verify password u.password = false) := by
  cases hfind : findOneUser users email with
  | none =>
    refine ⟨?_, ?_, ?_⟩
    · simp [login, hfind]
    · simpa [login, hfind] using (findOneUser_eq_none_iff users email).mp hfind
    · simp [login, hfind]
  | some u =>
    have hu := findOneUser_eq_some_mem hfind
    by_cases hv : verify password u.password = true
    · have hlogin : login verify sign secret users email password
          = .ok (sign email secret) u.email u.name u.avatar := by
        simp [login, hfind, hv]
      refine ⟨?_, ?_, ?_⟩
      · rw [hlogin]
        constructor
        · intro _; exact ⟨u, rfl, hv⟩
        · intro _; exact ⟨sign email secret, u.email, u.name, u.avatar, rfl⟩
      · rw [hlogin]
        constructor
        · intro hcontra; cases hcontra
        · intro hall; exact absurd hu.2 (hall u hu.1)
      · rw [hlogin]
        constructor
        · intro hcontra; cases hcontra
        · rintro ⟨u2, hu2, hv2⟩
          cases hu2
          rw [hv] at hv2
          cases hv2
    · rw [Bool.not_eq_true] at hv
      have hlogin : login verify sign secret users email password = .wrongPassword := by
        simp [login, hfind, hv]
      refine ⟨?_, ?_, ?_⟩
      · rw [hlogin]
        constructor
        · rintro ⟨t, e, n, a, hcontra⟩; cases hcontra
        · rintro ⟨u2, hu2, hv2⟩
          cases hu2
          rw [hv] at hv2
          cases hv2
      · rw [hlogin]
        constructor
        · intro hcontra; cases hcontra
        · intro hall; exact absurd hu.2 (hall u hu.1)
      · rw [hlogin]
        constructor
        · intro _; exact ⟨u, rfl, hv⟩
        · intro _; rfl

/-- C2: registering the same email twice on a store with no record for
it makes the first call succeed, the second call answer 400 "User
already exists" leaving the store unchanged, and exactly one record for
that email persists. -/
theorem register_twice (hash : String → String) (users : List User)
    (n1 n2 email p1 p2 : String)
    (h : findOneUser users email = none) :
    (register hash users n1 email p1).1 = (200, "Registered successfully") ∧
    (register hash (register hash users n1 email p1).2 n2 email p2).1
      = (400, "User already exists") ∧
    (register hash (register hash users n1 email p1).2 n2 email p2).2
      = (register hash users n1 email p1).2 ∧
    ((register hash (register hash users n1 email p1).2 n2 email p2).2.filter
      (fun u => u.email == email)).length = 1 := by
  have hfind1 : findOneUser (users ++ [(⟨n1, email, hash p1, ""⟩ : User)]) email
      = some ⟨n1, email, hash p1, ""⟩ := by
    unfold findOneUser at h ⊢
    rw [List.find?_append, h]
    simp
  have hfilter : users.filter (fun u => u.email == email) = [] := by
    rw [List.filter_eq_nil_iff]
    intro u hu
    simpa using (findOneUser_eq_none_iff users email).mp h u hu
  refine ⟨?_, ?_, ?_, ?_⟩
  · simp [register, h]
  · simp [register, h, hfind1]
  · simp [register, h, hfind1]
  · simp [register, h, hfind1, List.filter_append, hfilter]

/-- Witness for C2 on the empty user store with email "a". -/
theorem register_twice_witness :
    (register (fun s => s) [] "x" "a" "p").1 = (200, "Registered successfully") ∧
    (register (fun s => s) (register (fun s => s) [] "x" "a" "p").2 "y" "a" "q").1
      = (400, "User already exists") ∧
    (register (fun s => s) (register (fun s => s) [] "x" "a" "p").2 "y" "a" "q").2
      = (register (fun s => s) [] "x" "a" "p").2 ∧
    ((register (fun s => s) (register (fun s => s) [] "x" "a" "p").2 "y" "a" "q").2.filter
      (fun u => u.email == "a")).length = 1 :=
  register_twice (fun s => s) [] "x" "y" "a" "p" "q" rfl

theorem deleteOneRoom_no_name (rooms : List Room) (n : String)
    (hnd : (rooms.map Room.name).Nodup) :
    ∀ r ∈ deleteOneRoom rooms n, r.name ≠ n := by
  induction rooms with
  | nil => intro r hr; cases hr
  | cons a as ih =>
    rw [List.map_cons, List.nodup_cons] at hnd
    by_cases h : (a.name == n) = true
    · simp only [deleteOneRoom, if_pos h]
      intro r hr hrn
      have ha : a.name = n := by simpa using h
      exact hnd.1 (List.mem_map.mpr ⟨r, hr, hrn.trans ha.symm⟩)
    · simp only [deleteOneRoom, if_neg h]
      intro r hr
      rcases List.mem_cons.mp hr with rfl | hr2
      · intro hrn; exact h (by simp [hrn])
      · exact ih hnd.2 r hr2

/-- C5: `DELETE /deleteRoom/:name` removes the room named `r` (so it no
longer appears in `listRooms`, the room collection having unique names)
and deletes exactly the messages with `receiver == r` and
`isRoom == true`; every private message and every message addressed to
another room survives. -/
theorem deleteRoom_spec (rooms : List Room) (msgs : List Message) (n : String)
    (hnd : (rooms.map Room.name).Nodup) :
    (∀ r ∈ listRooms (deleteRoom rooms msgs n).1, r.name ≠ n) ∧
    (∀ m, m ∈ (deleteRoom rooms msgs n).2 ↔
      m ∈ msgs ∧ ¬(m.receiver = n ∧ m.isRoom = true)) ∧
    (∀ m ∈ msgs, m.isRoom = false → m ∈ (deleteRoom rooms msgs n).2) ∧
    (∀ m ∈ msgs, m.receiver ≠ n → m ∈ (deleteRoom rooms msgs n).2) := by
  have hmem : ∀ m, m ∈ (deleteRoom rooms msgs n).2 ↔
      m ∈ msgs ∧ ¬(m.receiver = n ∧ m.isRoom = true) := by
    intro m
    simp only [deleteRoom, List.mem_filter]
    constructor
    · rintro ⟨hm, hq⟩
      refine ⟨hm, ?_⟩
      rintro ⟨hr, hb⟩
      simp [hr, hb] at hq
    · rintro ⟨hm, hq⟩
      refine ⟨hm, ?_⟩
      by_cases hr : m.receiver = n
      · have hb : m.isRoom = false := by
          cases hib : m.isRoom
          · rfl
          · exact absurd ⟨hr, hib⟩ hq
        simp [hr, hb]
      · simp [hr]
  refine ⟨deleteOneRoom_no_name rooms n hnd, hmem, ?_, ?_⟩
  · intro m hm hfalse
    refine (hmem m).mpr ⟨hm, ?_⟩
    rintro ⟨_, hb⟩
    rw [hfalse] at hb
    cases hb
  · intro m hm hrn
    exact (hmem m).mpr ⟨hm, fun hq => hrn hq.1⟩

/-- Witness for C5: two rooms, one room message to each and one private
message; deleting room "r" keeps room "s", the other room's message and
the private message. -/
theorem deleteRoom_spec_witness :
    (∀ r ∈ listRooms (deleteRoom
        [⟨"r", "a", ["a"], []⟩, ⟨"s", "b", ["b"], []⟩]
        [⟨"a", "A", "r", "hi", "", true, 1⟩,
         ⟨"b", "B", "s", "yo", "", true, 2⟩,
         ⟨"a", "A", "b", "ps", "", false, 3⟩] "r").1, r.name ≠ "r") ∧
    (∀ m, m ∈ (deleteRoom
        [⟨"r", "a", ["a"], []⟩, ⟨"s", "b", ["b"], []⟩]
        [⟨"a", "A", "r", "hi", "", true, 1⟩,
         ⟨"b", "B", "s", "yo", "", true, 2⟩,
         ⟨"a", "A", "b", "ps", "", false, 3⟩] "r").2 ↔
      m ∈ [⟨"a", "A", "r", "hi", "", true, 1⟩,
         ⟨"b", "B", "s", "yo", "", true, 2⟩,
         ⟨"a", "A", "b", "ps", "", false, 3⟩] ∧
      ¬(m.receiver = "r" ∧ m.isRoom = true)) ∧
    (∀ m ∈ [⟨"a", "A", "r", "hi", "", true, 1⟩,
         ⟨"b", "B", "s", "yo", "", true, 2⟩,
         ⟨"a", "A", "b", "ps", "", false, 3⟩], m.isRoom = false → m ∈ (deleteRoom
        [⟨"r", "a", ["a"], []⟩, ⟨"s", "b", ["b"], []⟩]
        [⟨"a", "A", "r", "hi", "", true, 1⟩,
         ⟨"b", "B", "s", "yo", "", true, 2⟩,
         ⟨"a", "A", "b", "ps", "", false, 3⟩] "r").2) ∧
    (∀ m ∈ [⟨"a", "A", "r", "hi", "", true, 1⟩,
         ⟨"b", "B", "s", "yo", "", true, 2⟩,
         ⟨"a", "A", "b", "ps", "", false, 3⟩], m.receiver ≠ "r" → m ∈ (deleteRoom
        [⟨"r", "a", ["a"], []⟩, ⟨"s", "b", ["b"], []⟩]
        [⟨"a", "A", "r", "hi", "", true, 1⟩,
         ⟨"b", "B", "s", "yo", "", true, 2⟩,
         ⟨"a", "A", "b", "ps", "", false, 3⟩] "r").2) :=
  deleteRoom_spec
    [⟨"r", "a", ["a"], []⟩, ⟨"s", "b", ["b"], []⟩]
    [⟨"a", "A", "r", "hi", "", true, 1⟩,
     ⟨"b", "B", "s", "yo", "", true, 2⟩,
     ⟨"a", "A", "b", "ps", "", false, 3⟩] "r" (by decide)

theorem disjoint_after_approve {members jr : List String} (email : String)
    (hd : ∀ x ∈ members, x ∉ jr) :
    ∀ x ∈ addToSet members email, x ∉ jr.filter (fun e => e != email) := by
  intro x hx hxf
  rcases mem_addToSet.mp hx with hxm | rfl
  · exact hd x hxm (List.mem_filter.mp hxf).1
  · exact not_mem_filter_ne_self _ _ hxf

/-- C3: on an existing room whose member and join-request sets are
disjoint, `requestJoinRoom` followed by `approveJoin` (server.js) leaves
the email in `members`, not in `joinRequests`, and the two sets
disjoint. -/
theorem request_then_approve (rooms : List Room) (roomName email : String) (r0 : Room)
    (hex : findOneRoom rooms roomName = some r0)
    (hdisj : ∀ x ∈ r0.members, x ∉ r0.joinRequests) :
    ∃ r', findOneRoom
        (approveJoin (requestJoinRoom rooms roomName email) roomName email) roomName
        = some r' ∧
      email ∈ r'.members ∧ email ∉ r'.joinRequests ∧
      ∀ x ∈ r'.members, x ∉ r'.joinRequests := by
  have h1 : findOneRoom (requestJoinRoom rooms roomName email) roomName
      = some { r0 with joinRequests := addToSet r0.joinRequests email } := by
    unfold requestJoinRoom
    rw [findOneRoom_updateFirstRoom rooms roomName
      (fun r => { r with joinRequests := addToSet r.joinRequests email })
      (fun r => rfl), hex]
    rfl
  have h2 : findOneRoom
      (approveJoin (requestJoinRoom rooms roomName email) roomName email) roomName
      = some { r0 with members := addToSet r0.members email,
                       joinRequests := (addToSet r0.joinRequests email).filter
                         (fun e => e != email) } := by
    unfold approveJoin
    rw [findOneRoom_updateFirstRoom (requestJoinRoom rooms roomName email) roomName
      (fun r => { r with members := addToSet r.members email,
                         joinRequests := r.joinRequests.filter (fun e => e != email) })
      (fun r => rfl), h1]
    rfl
  refine ⟨_, h2, ?_, ?_, ?_⟩
  · exact self_mem_addToSet r0.members email
  · show email ∉ (addToSet r0.joinRequests email).filter (fun e => e != email)
    exact not_mem_filter_ne_self _ _
  · show ∀ x ∈ addToSet r0.members email,
      x ∉ (addToSet r0.joinRequests email).filter (fun e => e != email)
    rw [filter_ne_addToSet]
    exact disjoint_after_approve email hdisj

/-- Witness for C3: room "g" created by alice, bob requests and is
approved. -/
theorem request_then_approve_witness :
    ∃ r', findOneRoom
        (approveJoin (requestJoinRoom [⟨"g", "alice", ["alice"], []⟩] "g" "bob")
          "g" "bob") "g" = some r' ∧
      "bob" ∈ r'.members ∧ "bob" ∉ r'.joinRequests ∧
      ∀ x ∈ r'.members, x ∉ r'.joinRequests :=
  request_then_approve [⟨"g", "alice", ["alice"], []⟩] "g" "bob"
    ⟨"g", "alice", ["alice"], []⟩ (by decide) (by decide)

/-- Counterexample to C1 as stated: in the server.js handler,
`requestJoinRoom` on room "r" with email "a", which is already a member,
adds "a" to `joinRequests` anyway — the updated room has "a" in both
sets, so the disjointness invariant is broken by this operation. -/
theorem requestJoinRoom_breaks_disjoint :
    "a" ∈ ((requestJoinRoom [⟨"r", "c", ["a"], []⟩] "r" "a")[0]!).members ∧
    "a" ∈ ((requestJoinRoom [⟨"r", "c", ["a"], []⟩] "r" "a")[0]!).joinRequests := by
  decide

theorem contains_add_eq_addToSet (l : List String) (x : String) :
    (if l.contains x then l else l ++ [x]) = addToSet l x := by
  by_cases hx : x ∈ l
  · simp [addToSet, hx, List.elem_eq_mem]
  · simp [addToSet, hx, List.elem_eq_mem]

/-- C1 (amended): starting from any room collection whose rooms have
disjoint `members` and `joinRequests`, the part_000 `requestJoinRoom`
(which checks membership before pushing), the part_000 `approveJoin` and
the server.js `approveJoin` (each a single atomic update moving the
email out of `joinRequests` and into `members`) all preserve
disjointness; the server.js `requestJoinRoom` is excluded, since it adds
an email that is already in `members` to `joinRequests`. -/
theorem membership_ops_preserve_disjoint (rooms : List Room) (roomName email : String)
    (hdisj : ∀ r ∈ rooms, ∀ x ∈ r.members, x ∉ r.joinRequests) :
    (∀ r ∈ (requestJoinRoomLegacy rooms roomName email).2,
        ∀ x ∈ r.members, x ∉ r.joinRequests) ∧
    (∀ r ∈ (approveJoinLegacy rooms roomName email).2,
        ∀ x ∈ r.members, x ∉ r.joinRequests) ∧
    (∀ r ∈ approveJoin rooms roomName email, ∀ x ∈ r.members, x ∉ r.joinRequests) := by
  refine ⟨?_, ?_, ?_⟩
  · intro r hr
    unfold requestJoinRoomLegacy at hr
    cases hfind : findOneRoom rooms roomName with
    | none => rw [hfind] at hr; exact hdisj r hr
    | some r1 =>
      rw [hfind] at hr
      simp only at hr
      rcases mem_updateFirstRoom hr with hmem | ⟨r0, hr0, rfl⟩
      · exact hdisj r hmem
      · show ∀ x ∈ (if !r0.joinRequests.contains email && !r0.members.contains email then
            { r0 with joinRequests := r0.joinRequests ++ [email] } else r0).members,
          x ∉ (if !r0.joinRequests.contains email && !r0.members.contains email then
            { r0 with joinRequests := r0.joinRequests ++ [email] } else r0).joinRequests
        by_cases hc : (!r0.joinRequests.contains email && !r0.members.contains email) = true
        · rw [if_pos hc]
          simp only [Bool.and_eq_true, Bool.not_eq_true', List.elem_eq_mem,
            decide_eq_false_iff_not] at hc
          intro x hx hmem
          rcases List.mem_append.mp hmem with hj | he
          · exact hdisj r0 hr0 x hx hj
          · rw [List.mem_singleton] at he
            rw [he] at hx
            exact hc.2 hx
        · rw [if_neg hc]
          exact hdisj r0 hr0
  · intro r hr
    unfold approveJoinLegacy at hr
    cases hfind : findOneRoom rooms roomName with
    | none => rw [hfind] at hr; exact hdisj r hr
    | some r1 =>
      rw [hfind] at hr
      simp only at hr
      rcases mem_updateFirstRoom hr with hmem | ⟨r0, hr0, rfl⟩
      · exact hdisj r hmem
      · show ∀ x ∈ (if r0.members.contains email then r0.members
            else r0.members ++ [email]),
          x ∉ r0.joinRequests.filter (fun e => e != email)
        rw [contains_add_eq_addToSet]
        exact disjoint_after_approve email (hdisj r0 hr0)
  · intro r hr
    unfold approveJoin at hr
    rcases mem_updateFirstRoom hr with hmem | ⟨r0, hr0, rfl⟩
    · exact hdisj r hmem
    · show ∀ x ∈ addToSet r0.members email,
        x ∉ r0.joinRequests.filter (fun e => e != email)
      exact disjoint_after_approve email (hdisj r0 hr0)

/-- Witness for the amended C1 on a one-room collection with a member
"a" and a pending request "b", operating with email "b". -/
theorem membership_ops_preserve_disjoint_witness :
    (∀ r ∈ (requestJoinRoomLegacy [⟨"g", "a", ["a"], ["b"]⟩] "g" "b").2,
        ∀ x ∈ r.members, x ∉ r.joinRequests) ∧
    (∀ r ∈ (approveJoinLegacy [⟨"g", "a", ["a"], ["b"]⟩] "g" "b").2,
        ∀ x ∈ r.members, x ∉ r.joinRequests) ∧
    (∀ r ∈ approveJoin [⟨"g", "a", ["a"], ["b"]⟩] "g" "b",
        ∀ x ∈ r.members, x ∉ r.joinRequests) :=
  membership_ops_preserve_disjoint [⟨"g", "a", ["a"], ["b"]⟩] "g" "b" (by decide)
